import Mathlib

/-!
Shallow embedding of the `practigo/ffmpeg` Go package: a process supervisor
(`HookedRunner.Run`) that resolves a binary path, splits a flat argument
string on whitespace, runs caller hooks before start / after start / on
cancellation, starts the process, races cancellation against natural exit
via a background watcher goroutine, waits, and returns the wait error.

OS effects (`exec.LookPath`, `cmd.Start`, `cmd.Wait`, delivery of the
context-cancellation signal) are supplied by an `Env` oracle; one `run`
call produces a trace of observable events, the final command state and
the (unchanged) runner configuration.
-/

namespace Ffmpeg

/-- A Go `error` value. `Option GoError` models a Go error variable,
`none` standing for `nil`. -/
structure GoError where
  msg : String
deriving DecidableEq, Repr

/-- Model of the state of an `exec.Cmd` object that hooks can observe and
mutate: the resolved binary path, the positional arguments, the
environment override (`cmd.Env`), whether `cmd.Process.Kill()` has been
delivered, and the list of signals sent via `cmd.Process.Signal`. -/
structure Cmd where
  path : String
  args : List String
  envv : List String := []
  processKilled : Bool := false
  signals : List Int := []
deriving DecidableEq, Repr

/-- A `Hook` accesses (and may mutate) the underlying `Cmd`
(Go: `type Hook func(cmd *exec.Cmd)`). -/
def Hook : Type := Cmd → Cmd

/-- An `ErrHook` accesses the underlying `Cmd` and returns an error
(Go: `type ErrHook func(cmd *exec.Cmd) error`). -/
def ErrHook : Type := Cmd → Option GoError × Cmd

/-- The supervisor configuration (Go struct `HookedRunner`): binary path
and the three optional hooks; a `none` hook models a nil function field. -/
structure HookedRunner where
  path : String
  pre : Option ErrHook
  post : Option Hook
  exit : Option Hook

/-- The OS/runtime behaviour one `Run` call observes: the resolution
function (`exec.LookPath`), the result of `cmd.Start`, the result of
`cmd.Wait`, and whether the context-cancellation signal (`ctx.Done()`)
fires while the process is still running, i.e. before `cmd.Wait` returns
and `close(cleanup)` tears the watcher down. -/
structure Env where
  lookPath : String → Except GoError String
  startErr : Option GoError
  waitErr : Option GoError
  cancelWhileRunning : Bool

deriving instance DecidableEq for Except

/-- Observable events of one `Run` call, in program order. -/
inductive Event where
  | lookPathEv (name : String) (result : Except GoError String)
  | preHookEv
  | startEv (path : String) (args : List String)
  | postHookEv
  | spawnWatcherEv
  | exitHookEv
  | waitEv (result : Option GoError)
deriving DecidableEq, Repr

/-- Result of one `Run` call: the returned Go error, the event trace, the
final `Cmd` state when a command object was built, and the runner
configuration as left behind by the call. -/
structure RunResult where
  ret : Option GoError
  events : List Event
  cmd : Option Cmd
  runner : HookedRunner

/-- Go's `unicode.IsSpace`: the Unicode White_Space property
(these are exactly the code points Go reports as space). -/
def goIsSpace (c : Char) : Bool :=
  let n := c.toNat
  (0x09 ≤ n ∧ n ≤ 0x0D) ∨ n = 0x20 ∨ n = 0x85 ∨ n = 0xA0 ∨
  n = 0x1680 ∨ (0x2000 ≤ n ∧ n ≤ 0x200A) ∨ n = 0x2028 ∨ n = 0x2029 ∨
  n = 0x202F ∨ n = 0x205F ∨ n = 0x3000

/-- Worker for `fields`: scans the characters, accumulating the current
(reversed) in-progress token, emitting it whenever a space ends it. -/
def fieldsAux : List Char → List Char → List String
  | [], [] => []
  | [], acc => [String.mk acc.reverse]
  | c :: cs, acc =>
    if goIsSpace c then
      match acc with
      | [] => fieldsAux cs []
      | _ :: _ => String.mk acc.reverse :: fieldsAux cs []
    else
      fieldsAux cs (c :: acc)

/-- Go's `strings.Fields`: split a string around each maximal run of
white-space characters (as defined by `unicode.IsSpace`), returning the
list of non-empty tokens. -/
def fields (s : String) : List String :=
  fieldsAux s.toList []

/-- The command object built by `exec.Command(path, args...)` for the
resolved path and the whitespace-split argument string. -/
def initCmd (path : String) (arg : String) : Cmd :=
  { path := path, args := fields arg }

/-- Waiting phase of `Run`: the background watcher goroutine selects
between `ctx.Done()` and the `cleanup` channel.  If cancellation fires
while the process runs, the select takes the done branch and invokes the
non-nil exit hook (once — the goroutine body runs one select and
returns); otherwise the `close(cleanup)` performed after `cmd.Wait`
returns tears the watcher down without invoking it.  The main flow blocks
on `cmd.Wait` in both cases and returns its error verbatim. -/
def watchAndWait (env : Env) (r : HookedRunner) (cmd : Cmd) (ev : List Event) :
    RunResult :=
  if env.cancelWhileRunning then
    match r.exit with
    | some h =>
        { ret := env.waitErr
          events := ev ++ [Event.exitHookEv, Event.waitEv env.waitErr]
          cmd := some (h cmd)
          runner := r }
    | none =>
        { ret := env.waitErr
          events := ev ++ [Event.waitEv env.waitErr]
          cmd := some cmd
          runner := r }
  else
    { ret := env.waitErr
      events := ev ++ [Event.waitEv env.waitErr]
      cmd := some cmd
      runner := r }

/-- After a successful `cmd.Start()`: invoke the post-start hook when
configured, then spawn the watcher goroutine and wait. -/
def afterStart (env : Env) (r : HookedRunner) (cmd : Cmd) (ev : List Event) :
    RunResult :=
  match r.post with
  | some h =>
      watchAndWait env r (h cmd)
        (ev ++ [Event.postHookEv, Event.spawnWatcherEv])
  | none =>
      watchAndWait env r cmd (ev ++ [Event.spawnWatcherEv])

/-- The `cmd.Start()` step: on failure `Run` returns the launch error at
once (no post hook, no watcher, no wait); on success the start event is
recorded with the command's path and arguments as they stand after the
pre-start hook. -/
def startPhase (env : Env) (r : HookedRunner) (cmd : Cmd) (ev : List Event) :
    RunResult :=
  match env.startErr with
  | some e => { ret := some e, events := ev, cmd := some cmd, runner := r }
  | none => afterStart env r cmd (ev ++ [Event.startEv cmd.path cmd.args])

/-- `HookedRunner.Run`: resolve the binary with `exec.LookPath` (returning
the resolution error before anything else happens), split the argument
string with `strings.Fields`, build the command, run the pre-start hook
(propagating its error and never starting the process when it fails),
then start, post-hook, watch and wait. -/
def run (env : Env) (r : HookedRunner) (arg : String) : RunResult :=
  match env.lookPath r.path with
  | Except.error e =>
      { ret := some e
        events := [Event.lookPathEv r.path (Except.error e)]
        cmd := none
        runner := r }
  | Except.ok path =>
      let cmd := initCmd path arg
      let ev := [Event.lookPathEv r.path (Except.ok path)]
      match r.pre with
      | some h =>
          match h cmd with
          | (some e, c1) =>
              { ret := some e
                events := ev ++ [Event.preHookEv]
                cmd := some c1
                runner := r }
          | (none, c1) => startPhase env r c1 (ev ++ [Event.preHookEv])
      | none => startPhase env r cmd ev

/-- The default on-cancellation hook installed by the constructor:
`cmd.Process.Kill()`, a forceful kill of the process. -/
def defaultExitHook : Hook := fun cmd => { cmd with processKilled := true }

/-- The default configuration the constructor starts from: binary name
`"ffmpeg"`, no pre/post hooks, forceful-kill on cancellation. -/
def defaultRunner : HookedRunner :=
  { path := "ffmpeg", pre := none, post := none, exit := some defaultExitHook }

/-- `HookRunner`: build a runner by applying the option functions in order
to the default configuration. -/
def HookRunner (opts : List (HookedRunner → HookedRunner)) : HookedRunner :=
  opts.foldl (fun r o => o r) defaultRunner

/-- `CustomPath` option: sets the ffmpeg binary path. -/
def CustomPath (p : String) : HookedRunner → HookedRunner :=
  fun r => { r with path := p }

/-- `PreHook` option: installs the hook run before the cmd starts. -/
def PreHook (h : ErrHook) : HookedRunner → HookedRunner :=
  fun r => { r with pre := some h }

/-- `PostHook` option: installs the hook run after the cmd starts. -/
def PostHook (h : Hook) : HookedRunner → HookedRunner :=
  fun r => { r with post := some h }

/-- `DoneHook` option: replaces the default on-cancellation hook. -/
def DoneHook (h : Hook) : HookedRunner → HookedRunner :=
  fun r => { r with exit := some h }

/-- The pre-start hook, when configured, succeeds (returns nil) on the
given command. -/
def preOk (pre : Option ErrHook) (c : Cmd) : Prop :=
  ∀ h, pre = some h → (h c).1 = none

/-- Whether an event is a start event. -/
def isStartEv : Event → Bool
  | Event.startEv _ _ => true
  | _ => false

/-- Whether an event is a wait event. -/
def isWaitEv : Event → Bool
  | Event.waitEv _ => true
  | _ => false

/-- The pre-start hook, when configured, leaves the positional argument
list of the command unchanged. -/
def preKeepsArgs (pre : Option ErrHook) (c : Cmd) : Prop :=
  ∀ h, pre = some h → ((h c).2).args = c.args

/-! ### Lemmas about `fields` -/

/-- A string built from a non-empty character list is not the empty string. -/
lemma mk_cons_ne_empty (c : Char) (l : List Char) : String.mk (c :: l) ≠ "" := by
  intro h
  have h2 : c :: l = ([] : List Char) := congrArg String.data h
  simp at h2

/-- Every token `fieldsAux` emits is non-empty and free of white space,
provided the running accumulator is free of white space. -/
lemma fieldsAux_mem (cs : List Char) :
    ∀ acc, (∀ c ∈ acc, goIsSpace c = false) →
      ∀ t ∈ fieldsAux cs acc, t ≠ "" ∧ ∀ c ∈ t.toList, goIsSpace c = false := by
  induction cs with
  | nil =>
    intro acc hacc t ht
    cases acc with
    | nil => simp [fieldsAux] at ht
    | cons a as =>
      simp only [fieldsAux, List.mem_singleton] at ht
      subst ht
      refine ⟨?_, ?_⟩
      · rcases h : (a :: as).reverse with _ | ⟨b, bs⟩
        · simp at h
        · exact mk_cons_ne_empty b bs
      · intro c hc
        have hc2 : c ∈ (a :: as).reverse := hc
        exact hacc c (List.mem_reverse.mp hc2)
  | cons c cs ih =>
    intro acc hacc t ht
    by_cases hsp : goIsSpace c
    · cases acc with
      | nil =>
        simp only [fieldsAux, if_pos hsp] at ht
        exact ih [] (by simp) t ht
      | cons a as =>
        simp only [fieldsAux, if_pos hsp, List.mem_cons] at ht
        rcases ht with rfl | ht
        · refine ⟨?_, ?_⟩
          · rcases h : (a :: as).reverse with _ | ⟨b, bs⟩
            · simp at h
            · exact mk_cons_ne_empty b bs
          · intro d hd
            have hd2 : d ∈ (a :: as).reverse := hd
            exact hacc d (List.mem_reverse.mp hd2)
        · exact ih [] (by simp) t ht
    · simp only [fieldsAux, if_neg hsp] at ht
      refine ih (c :: acc) ?_ t ht
      intro d hd
      rcases List.mem_cons.mp hd with rfl | hd
      · exact Bool.eq_false_iff.mpr hsp
      · exact hacc d hd

/-- A character list of white space only produces no tokens. -/
lemma fieldsAux_allSpace (cs : List Char)
    (h : ∀ c ∈ cs, goIsSpace c = true) : fieldsAux cs [] = [] := by
  induction cs with
  | nil => rfl
  | cons c cs ih =>
    have hc : goIsSpace c = true := h c (List.mem_cons_self c cs)
    simp only [fieldsAux, if_pos hc]
    exact ih fun d hd => h d (List.mem_cons_of_mem c hd)

/-- Tokens of `fields` are non-empty and contain no white space. -/
lemma fields_mem (s : String) (t : String) (ht : t ∈ fields s) :
    t ≠ "" ∧ ∀ c ∈ t.toList, goIsSpace c = false :=
  fieldsAux_mem s.toList [] (by simp) t ht

/-- An all-white-space string splits into no tokens. -/
lemma fields_allSpace (s : String) (h : ∀ c ∈ s.toList, goIsSpace c = true) :
    fields s = [] :=
  fieldsAux_allSpace s.toList h

/-! ### Concrete environments and runners used as witnesses -/

/-- A resolution function that finds the binary. -/
def okLook : String → Except GoError String :=
  fun _ => Except.ok "/usr/bin/ffmpeg"

/-- Environment: resolution and start succeed, cancellation fires while
the process runs, the killed process reports a non-nil wait error. -/
def envCancel : Env :=
  { lookPath := okLook, startErr := none,
    waitErr := some ⟨"signal: killed"⟩, cancelWhileRunning := true }

/-- Environment: the process runs to a clean natural exit, cancellation
never fires. -/
def envNatural : Env :=
  { lookPath := okLook, startErr := none,
    waitErr := none, cancelWhileRunning := false }

/-- Environment: the executable cannot be resolved on the search path. -/
def envNoBin : Env :=
  { lookPath := fun p =>
      Except.error ⟨"exec: " ++ p ++ ": executable file not found in $PATH"⟩,
    startErr := none, waitErr := none, cancelWhileRunning := false }

/-- Environment: the OS fails to create the process. -/
def envStartFail : Env :=
  { lookPath := okLook, startErr := some ⟨"fork/exec: permission denied"⟩,
    waitErr := none, cancelWhileRunning := false }

/-- A pre-start hook that rejects the launch. -/
def failingPre : ErrHook := fun c => (some ⟨"pre hook failed"⟩, c)

/-- A runner configured with the rejecting pre-start hook. -/
def preFailRunner : HookedRunner := HookRunner [PreHook failingPre]

/-! ### Claims -/

/-- Claim C4: for an executable name that cannot be resolved, `Run`
returns the resolution error before any process is spawned — the trace is
the failed lookup alone, so no command is built, no hook (pre, post or
on-cancel) is invoked, no start and no wait happen. -/
theorem run_lookPath_error_stops (env : Env) (r : HookedRunner)
    (arg : String) (e : GoError)
    (hlp : env.lookPath r.path = Except.error e) :
    (run env r arg).ret = some e ∧
    (run env r arg).cmd = none ∧
    (run env r arg).events = [Event.lookPathEv r.path (Except.error e)] ∧
    Event.preHookEv ∉ (run env r arg).events ∧
    (∀ q a, Event.startEv q a ∉ (run env r arg).events) ∧
    Event.postHookEv ∉ (run env r arg).events ∧
    Event.exitHookEv ∉ (run env r arg).events ∧
    (∀ w, Event.waitEv w ∉ (run env r arg).events) := by
  simp only [run, hlp]
  simp

/-- Closed witness for claim C4 at a concrete environment. -/
theorem run_lookPath_error_stops_witness :
    (run envNoBin defaultRunner "-i test.mp4").ret =
      some ⟨"exec: ffmpeg: executable file not found in $PATH"⟩ ∧
    (run envNoBin defaultRunner "-i test.mp4").cmd = none := by
  have h := run_lookPath_error_stops envNoBin defaultRunner "-i test.mp4"
    ⟨"exec: ffmpeg: executable file not found in $PATH"⟩ rfl
  exact ⟨h.1, h.2.1⟩

/-- Claim C3: when the configured pre-start hook rejects, `Run` returns
exactly its error; the process is never started and neither the post
hook, the watcher, the on-cancel hook nor the wait are reached. -/
theorem run_preHook_error_stops (env : Env) (r : HookedRunner)
    (arg p : String) (eh : ErrHook) (e : GoError)
    (hlp : env.lookPath r.path = Except.ok p)
    (hp : r.pre = some eh)
    (he : (eh (initCmd p arg)).1 = some e) :
    (run env r arg).ret = some e ∧
    (∀ q a, Event.startEv q a ∉ (run env r arg).events) ∧
    Event.postHookEv ∉ (run env r arg).events ∧
    Event.spawnWatcherEv ∉ (run env r arg).events ∧
    Event.exitHookEv ∉ (run env r arg).events ∧
    (∀ w, Event.waitEv w ∉ (run env r arg).events) := by
  rcases hec : eh (initCmd p arg) with ⟨e1, c1⟩
  rw [hec] at he
  simp only at he
  subst he
  simp only [run, hlp, hp, hec]
  simp

/-- Closed witness for claim C3 at a concrete environment and hook. -/
theorem run_preHook_error_stops_witness :
    (run envNatural preFailRunner "-i test.mp4").ret =
      some ⟨"pre hook failed"⟩ ∧
    Event.postHookEv ∉ (run envNatural preFailRunner "-i test.mp4").events := by
  have h := run_preHook_error_stops envNatural preFailRunner "-i test.mp4"
    "/usr/bin/ffmpeg" failingPre ⟨"pre hook failed"⟩ rfl rfl rfl
  exact ⟨h.1, h.2.2.1⟩

/-- Claim C7: when the OS fails to create the process, `Run` returns the
launch error; the post-start hook never runs, no watcher is spawned, no
wait is performed and the on-cancel hook never runs. -/
theorem run_start_error_stops (env : Env) (r : HookedRunner)
    (arg p : String) (e : GoError)
    (hlp : env.lookPath r.path = Except.ok p)
    (hpre : preOk r.pre (initCmd p arg))
    (hstart : env.startErr = some e) :
    (run env r arg).ret = some e ∧
    Event.postHookEv ∉ (run env r arg).events ∧
    Event.spawnWatcherEv ∉ (run env r arg).events ∧
    (∀ w, Event.waitEv w ∉ (run env r arg).events) ∧
    Event.exitHookEv ∉ (run env r arg).events := by
  rcases hp : r.pre with _ | eh
  · simp only [run, hlp, hp, startPhase, hstart]
    simp
  · have he : (eh (initCmd p arg)).1 = none := hpre eh hp
    rcases hec : eh (initCmd p arg) with ⟨e1, c1⟩
    rw [hec] at he
    simp only at he
    subst he
    simp only [run, hlp, hp, hec, startPhase, hstart]
    simp

/-- Closed witness for claim C7 at a concrete environment. -/
theorem run_start_error_stops_witness :
    (run envStartFail defaultRunner "-i test.mp4").ret =
      some ⟨"fork/exec: permission denied"⟩ ∧
    Event.postHookEv ∉ (run envStartFail defaultRunner "-i test.mp4").events := by
  have h := run_start_error_stops envStartFail defaultRunner "-i test.mp4"
    "/usr/bin/ffmpeg" ⟨"fork/exec: permission denied"⟩ rfl
    (fun _ hh => nomatch hh) rfl
  exact ⟨h.1, h.2.1⟩

/-- Claim C1: when cancellation fires while the process is running, the
configured on-cancellation hook is invoked exactly once — the trace ends
with one exit-hook event followed by the wait, and no exit-hook event
occurs anywhere else — and `Run` still blocks on completion and returns
the wait result. -/
theorem run_cancel_exitHook_once (env : Env) (r : HookedRunner)
    (arg p : String) (h : Hook)
    (hlp : env.lookPath r.path = Except.ok p)
    (hpre : preOk r.pre (initCmd p arg))
    (hstart : env.startErr = none)
    (hexit : r.exit = some h)
    (hcancel : env.cancelWhileRunning = true) :
    (∃ evs, (run env r arg).events =
        evs ++ [Event.exitHookEv, Event.waitEv env.waitErr] ∧
      Event.exitHookEv ∉ evs) ∧
    (run env r arg).ret = env.waitErr := by
  rcases hp : r.pre with _ | eh
  · rcases hq : r.post with _ | h1
    · simp only [run, hlp, hp, startPhase, hstart, afterStart, hq,
        watchAndWait, hcancel, if_true, hexit]
      exact ⟨⟨_, rfl, by simp⟩, trivial⟩
    · simp only [run, hlp, hp, startPhase, hstart, afterStart, hq,
        watchAndWait, hcancel, if_true, hexit]
      exact ⟨⟨_, rfl, by simp⟩, trivial⟩
  · have he : (eh (initCmd p arg)).1 = none := hpre eh hp
    rcases hec : eh (initCmd p arg) with ⟨e1, c1⟩
    rw [hec] at he
    simp only at he
    subst he
    rcases hq : r.post with _ | h1
    · simp only [run, hlp, hp, hec, startPhase, hstart, afterStart, hq,
        watchAndWait, hcancel, if_true, hexit]
      exact ⟨⟨_, rfl, by simp⟩, trivial⟩
    · simp only [run, hlp, hp, hec, startPhase, hstart, afterStart, hq,
        watchAndWait, hcancel, if_true, hexit]
      exact ⟨⟨_, rfl, by simp⟩, trivial⟩

/-- Closed witness for claim C1 at a concrete environment. -/
theorem run_cancel_exitHook_once_witness :
    (∃ evs, (run envCancel defaultRunner "-i test.mp4").events =
        evs ++ [Event.exitHookEv, Event.waitEv envCancel.waitErr] ∧
      Event.exitHookEv ∉ evs) ∧
    (run envCancel defaultRunner "-i test.mp4").ret = envCancel.waitErr :=
  run_cancel_exitHook_once envCancel defaultRunner "-i test.mp4"
    "/usr/bin/ffmpeg" defaultExitHook rfl (fun _ hh => nomatch hh) rfl rfl rfl

/-- Claim C2: when the process exits naturally before cancellation fires,
the on-cancellation hook is never invoked; the watcher is torn down and
`Run` returns the wait result. -/
theorem run_naturalExit_no_exitHook (env : Env) (r : HookedRunner)
    (arg p : String)
    (hlp : env.lookPath r.path = Except.ok p)
    (hpre : preOk r.pre (initCmd p arg))
    (hstart : env.startErr = none)
    (hcancel : env.cancelWhileRunning = false) :
    Event.exitHookEv ∉ (run env r arg).events ∧
    (run env r arg).ret = env.waitErr := by
  rcases hp : r.pre with _ | eh
  · rcases hq : r.post with _ | h1 <;>
      simp [run, hlp, hp, startPhase, hstart, afterStart, hq,
        watchAndWait, hcancel]
  · have he : (eh (initCmd p arg)).1 = none := hpre eh hp
    rcases hec : eh (initCmd p arg) with ⟨e1, c1⟩
    rw [hec] at he
    simp only at he
    subst he
    rcases hq : r.post with _ | h1 <;>
      simp [run, hlp, hp, hec, startPhase, hstart, afterStart, hq,
        watchAndWait, hcancel]

/-- Closed witness for claim C2 at a concrete environment. -/
theorem run_naturalExit_no_exitHook_witness :
    Event.exitHookEv ∉ (run envNatural defaultRunner "-i test.mp4").events ∧
    (run envNatural defaultRunner "-i test.mp4").ret = envNatural.waitErr :=
  run_naturalExit_no_exitHook envNatural defaultRunner "-i test.mp4"
    "/usr/bin/ffmpeg" rfl (fun _ hh => nomatch hh) rfl rfl

/-- Claim C5: once the process has started, `Run` returns the wait result
verbatim — `nil` exactly when the process exits cleanly, and the non-nil
wait error otherwise — regardless of hooks and cancellation. -/
theorem run_returns_wait_error (env : Env) (r : HookedRunner)
    (arg p : String)
    (hlp : env.lookPath r.path = Except.ok p)
    (hpre : preOk r.pre (initCmd p arg))
    (hstart : env.startErr = none) :
    (run env r arg).ret = env.waitErr ∧
    ((run env r arg).ret = none ↔ env.waitErr = none) := by
  have hr : (run env r arg).ret = env.waitErr := by
    rcases hp : r.pre with _ | eh
    · rcases hq : r.post with _ | h1 <;>
        rcases hc : env.cancelWhileRunning <;>
        rcases hx : r.exit with _ | h2 <;>
        simp [run, hlp, hp, startPhase, hstart, afterStart, hq,
          watchAndWait, hc, hx]
    · have he : (eh (initCmd p arg)).1 = none := hpre eh hp
      rcases hec : eh (initCmd p arg) with ⟨e1, c1⟩
      rw [hec] at he
      simp only at he
      subst he
      rcases hq : r.post with _ | h1 <;>
        rcases hc : env.cancelWhileRunning <;>
        rcases hx : r.exit with _ | h2 <;>
        simp [run, hlp, hp, hec, startPhase, hstart, afterStart, hq,
          watchAndWait, hc, hx]
  exact ⟨hr, by rw [hr]⟩

/-- Closed witness for claim C5 at a concrete environment. -/
theorem run_returns_wait_error_witness :
    (run envCancel defaultRunner "-i test.mp4").ret = envCancel.waitErr ∧
    ((run envCancel defaultRunner "-i test.mp4").ret = none ↔
      envCancel.waitErr = none) :=
  run_returns_wait_error envCancel defaultRunner "-i test.mp4"
    "/usr/bin/ffmpeg" rfl (fun _ hh => nomatch hh) rfl

/-! ### The runner configuration is never written by `run` -/

/-- `watchAndWait` leaves the runner configuration unchanged. -/
lemma watchAndWait_runner (env : Env) (r : HookedRunner) (c : Cmd)
    (ev : List Event) : (watchAndWait env r c ev).runner = r := by
  unfold watchAndWait
  split
  · split <;> rfl
  · rfl

/-- `afterStart` leaves the runner configuration unchanged. -/
lemma afterStart_runner (env : Env) (r : HookedRunner) (c : Cmd)
    (ev : List Event) : (afterStart env r c ev).runner = r := by
  unfold afterStart
  split <;> apply watchAndWait_runner

/-- `startPhase` leaves the runner configuration unchanged. -/
lemma startPhase_runner (env : Env) (r : HookedRunner) (c : Cmd)
    (ev : List Event) : (startPhase env r c ev).runner = r := by
  unfold startPhase
  split
  · rfl
  · apply afterStart_runner

/-- `run` leaves the runner configuration unchanged. -/
lemma run_runner (env : Env) (r : HookedRunner) (arg : String) :
    (run env r arg).runner = r := by
  unfold run
  split
  · rfl
  · split
    · dsimp only
      split
      · rfl
      · apply startPhase_runner
    · apply startPhase_runner

/-! ### Start events in the trace -/

/-- `watchAndWait` adds no start event. -/
lemma watchAndWait_startEv (env : Env) (r : HookedRunner) (c : Cmd)
    (ev : List Event) (q : String) (a : List String) :
    Event.startEv q a ∈ (watchAndWait env r c ev).events ↔
      Event.startEv q a ∈ ev := by
  unfold watchAndWait
  split
  · split <;> simp
  · simp

/-- `afterStart` adds no start event. -/
lemma afterStart_startEv (env : Env) (r : HookedRunner) (c : Cmd)
    (ev : List Event) (q : String) (a : List String) :
    Event.startEv q a ∈ (afterStart env r c ev).events ↔
      Event.startEv q a ∈ ev := by
  unfold afterStart
  split <;> simp [watchAndWait_startEv]

/-- After a successful start, the trace holds exactly the start events of
the prior trace plus the one recording the started command. -/
lemma startPhase_startEv (env : Env) (r : HookedRunner) (c : Cmd)
    (ev : List Event) (q : String) (a : List String)
    (hstart : env.startErr = none) :
    Event.startEv q a ∈ (startPhase env r c ev).events ↔
      (Event.startEv q a ∈ ev ∨ (q = c.path ∧ a = c.args)) := by
  simp only [startPhase, hstart]
  simp [afterStart_startEv]

/-- Claim C6: argument splitting is pure whitespace tokenisation —
`"-i test.mp4"` yields exactly `-i` and `test.mp4`, and every token of
every argument string is non-empty and free of white space (so leading or
trailing whitespace never produces empty tokens). -/
theorem fields_splits_whitespace (s t : String) (ht : t ∈ fields s) :
    fields "-i test.mp4" = ["-i", "test.mp4"] ∧
    t ≠ "" ∧ (∀ c ∈ t.toList, goIsSpace c = false) :=
  ⟨by decide, (fields_mem s t ht).1, (fields_mem s t ht).2⟩

/-- Closed witness for claim C6 on a string with leading and trailing
whitespace. -/
theorem fields_splits_whitespace_witness :
    ("-i" ∈ fields "  -i test.mp4  ") ∧
    (fields "-i test.mp4" = ["-i", "test.mp4"] ∧
     "-i" ≠ "" ∧ (∀ c ∈ "-i".toList, goIsSpace c = false)) :=
  ⟨by decide, fields_splits_whitespace "  -i test.mp4  " "-i" (by decide)⟩

/-- Claim C8: the constructor with no options yields the executable name
`"ffmpeg"`, no pre-start hook, no post-start hook, and an on-cancellation
hook that delivers a forceful kill to the process. -/
theorem hookRunner_defaults :
    HookRunner [] = defaultRunner ∧
    (HookRunner []).path = "ffmpeg" ∧
    (HookRunner []).pre = none ∧
    (HookRunner []).post = none ∧
    (HookRunner []).exit = some defaultExitHook ∧
    ∀ c, (defaultExitHook c).processKilled = true :=
  ⟨rfl, rfl, rfl, rfl, rfl, fun _ => rfl⟩

/-- Claim C9: the configuration is fixed at construction by applying the
option functions in order to the default configuration (later options
overriding earlier ones), and `run` never changes the runner's
configuration fields. -/
theorem hookRunner_config_immutable
    (opts opts2 : List (HookedRunner → HookedRunner))
    (env : Env) (r : HookedRunner) (arg : String) :
    HookRunner opts = opts.foldl (fun s o => o s) defaultRunner ∧
    HookRunner (opts ++ opts2) =
      opts2.foldl (fun s o => o s) (HookRunner opts) ∧
    (HookRunner [CustomPath "ff", CustomPath "gg"]).path = "gg" ∧
    (run env r arg).runner = r :=
  ⟨rfl, by simp [HookRunner, List.foldl_append], rfl, run_runner env r arg⟩

/-- Claim C10: an argument string that is empty or all whitespace splits
into the empty token list, and the process is started with zero
positional arguments — the recorded start event carries an empty argument
list, and no start event carries a non-empty one. -/
theorem run_allSpace_empty_args (env : Env) (r : HookedRunner)
    (arg p : String)
    (hws : ∀ c ∈ arg.toList, goIsSpace c = true)
    (hlp : env.lookPath r.path = Except.ok p)
    (hpre : preOk r.pre (initCmd p arg))
    (hkeep : preKeepsArgs r.pre (initCmd p arg))
    (hstart : env.startErr = none) :
    fields arg = [] ∧
    (∃ q a, Event.startEv q a ∈ (run env r arg).events) ∧
    (∀ q a, Event.startEv q a ∈ (run env r arg).events → a = []) := by
  have hf : fields arg = [] := fields_allSpace arg hws
  refine ⟨hf, ?_⟩
  rcases hp : r.pre with _ | eh
  · simp only [run, hlp, hp]
    constructor
    · exact ⟨(initCmd p arg).path, (initCmd p arg).args,
        (startPhase_startEv env r _ _ _ _ hstart).mpr (Or.inr ⟨rfl, rfl⟩)⟩
    · intro q a hqa
      rcases (startPhase_startEv env r _ _ _ _ hstart).mp hqa with hin | ⟨_, ha⟩
      · simp at hin
      · rw [ha]
        simp [initCmd, hf]
  · have he : (eh (initCmd p arg)).1 = none := hpre eh hp
    have hk : ((eh (initCmd p arg)).2).args = (initCmd p arg).args :=
      hkeep eh hp
    rcases hec : eh (initCmd p arg) with ⟨e1, c1⟩
    rw [hec] at he hk
    simp only at he hk
    subst he
    simp only [run, hlp, hp, hec]
    constructor
    · exact ⟨c1.path, c1.args,
        (startPhase_startEv env r _ _ _ _ hstart).mpr (Or.inr ⟨rfl, rfl⟩)⟩
    · intro q a hqa
      rcases (startPhase_startEv env r _ _ _ _ hstart).mp hqa with hin | ⟨_, ha⟩
      · simp at hin
      · rw [ha, hk]
        simp [initCmd, hf]

/-- Closed witness for claim C10 at a concrete all-whitespace argument. -/
theorem run_allSpace_empty_args_witness :
    fields "   " = [] ∧
    (∃ q a, Event.startEv q a ∈ (run envNatural defaultRunner "   ").events) ∧
    (∀ q a, Event.startEv q a ∈ (run envNatural defaultRunner "   ").events →
      a = []) :=
  run_allSpace_empty_args envNatural defaultRunner "   " "/usr/bin/ffmpeg"
    (by decide) rfl (fun _ hh => nomatch hh) (fun _ hh => nomatch hh) rfl

end Ffmpeg
